import Mathlib

/-!
Verification development for the duffle repository (CNAB bundle installer).

The definitions below are a shallow embedding of the Go source:
* the index catalog (`pkg/repo`: `BundleEntry`, `BundleEntries.Less`,
  `IndexFile` with `Add`, `Has`, `Get`, `SortEntries`, `Merge`, `loadIndex`,
  `GenerateFromDirectory`),
* the local content store (`pkg/store/local`: `signAndWriteBundle`),
* the install command (`cmd/duffle`: the claim execute/store tail of
  `newInstallCmd`, `validateImage`, `getBundleFile` reference resolution and
  mirror loop).

External collaborators (semver library, docker reference parser, HTTP, the
filesystem, the driver, claim storage, signing) are modelled as explicit
function parameters or as faithful models of the library fragment the code
exercises; each such model's doc comment states its scope.
-/

namespace Duffle

/-- Semantic version as parsed by the Masterminds semver library for plain
numeric dotted versions. The modelled fragment covers `X`, `X.Y` and `X.Y.Z`
with decimal numerals; the v-prefix, prerelease, metadata and wildcard forms
are outside the fragment and parse failures stand in for them. -/
structure SemVer where
  major : Nat
  minor : Nat
  patch : Nat
deriving DecidableEq, Repr

/-- Splits a character list on the dot character (helper for version parsing). -/
def splitDots (cur : List Char) : List Char → List (List Char)
  | [] => [cur.reverse]
  | c :: cs => if c = '.' then cur.reverse :: splitDots [] cs else splitDots (c :: cur) cs

/-- Accumulates a decimal numeral; fails on any non-digit character. -/
def digitsVal (acc : Nat) : List Char → Option Nat
  | [] => some acc
  | c :: cs => if c.isDigit then digitsVal (acc * 10 + (c.toNat - 48)) cs else none

/-- Parses a nonempty all-digit character list as a natural number. -/
def parseNatStr (cs : List Char) : Option Nat :=
  match cs with
  | [] => none
  | _ => digitsVal 0 cs

/-- Models `semver.NewVersion` on the numeric fragment: one to three
dot-separated decimal components. -/
def parseVersion (s : String) : Option SemVer :=
  match (splitDots [] s.data).map parseNatStr with
  | [some a] => some ⟨a, 0, 0⟩
  | [some a, some b] => some ⟨a, b, 0⟩
  | [some a, some b, some c] => some ⟨a, b, c⟩
  | _ => none

/-- Models `Version.LessThan`: lexicographic order on (major, minor, patch). -/
def versionLt (x y : SemVer) : Bool :=
  decide (x.major < y.major ∨ (x.major = y.major ∧ (x.minor < y.minor ∨
    (x.minor = y.minor ∧ x.patch < y.patch))))

/-- Maintainer record from `pkg/repo` (`Name`, `Email`, `URL`). -/
structure Maintainer where
  Name : String
  Email : String
  URL : String
deriving DecidableEq, Repr

/-- BundleEntry from `pkg/repo`: one published version of one bundle.
`Added` is the creation timestamp, modelled as a natural number. -/
structure BundleEntry where
  Name : String
  Version : String
  Home : String
  URLs : List String
  Description : String
  Keywords : List String
  Maintainers : List Maintainer
  APIVersion : String
  Digest : String
  Added : Nat
deriving DecidableEq, Repr

/-- `BundleEntries.Less` from `pkg/repo`: failed parse of the first version
pushes to the back (returns true); failed parse of the second returns false;
otherwise semver comparison. -/
def entryLess (a b : BundleEntry) : Bool :=
  match parseVersion a.Version with
  | none => true
  | some i =>
    match parseVersion b.Version with
    | none => false
    | some j => versionLt i j

/-- One step of the insertion sort performed by `sort.Sort(sort.Reverse(c))`
on a `BundleEntries` slice: the new element sinks past `y` exactly when the
reversed comparator orders `y` before it, i.e. when `entryLess x y`. This is
the element move rule of the insertion sort Go uses for short slices. -/
def insertEntry (x : BundleEntry) : List BundleEntry → List BundleEntry
  | [] => [x]
  | y :: ys => if entryLess x y then y :: insertEntry x ys else x :: y :: ys

/-- Models `sort.Sort(sort.Reverse(c))` on a `BundleEntries` slice: a
comparator-driven insertion sort (the algorithm Go applies to short slices;
for the ordering properties proved below the choice among Go's sort phases
is irrelevant, and the two-element counterexamples evaluate the very
insertion sort Go runs). -/
def sortEntriesList : List BundleEntry → List BundleEntry
  | [] => []
  | x :: xs => insertEntry x (sortEntriesList xs)

/-- Error values of `pkg/repo` (`ErrNoAPIVersion`, `ErrNoBundleVersion`,
`ErrNoBundleName`, the semver constraint parse error, and the formatted
"No bundle version found for name-version" error). -/
inductive RepoErr where
  | noAPIVersion : RepoErr
  | noBundleVersion : RepoErr
  | noBundleName : RepoErr
  | constraintParse (s : String) : RepoErr
  | noVersionFound (name version : String) : RepoErr
deriving DecidableEq, Repr

/-- Go map lookup on the association-list model of `map[string]BundleEntries`
(first binding wins; Go maps have unique keys). -/
def mGet (m : List (String × List BundleEntry)) (k : String) :
    Option (List BundleEntry) :=
  match m with
  | [] => none
  | p :: r => if p.1 = k then some p.2 else mGet r k

/-- Go map lookup with the zero value (empty slice) for absent keys. -/
def mGetD (m : List (String × List BundleEntry)) (k : String) :
    List BundleEntry :=
  (mGet m k).getD []

/-- Go map update: replaces the first binding of the key, or appends a new
binding when the key is absent. -/
def mSet (m : List (String × List BundleEntry)) (k : String)
    (v : List BundleEntry) : List (String × List BundleEntry) :=
  match m with
  | [] => [(k, v)]
  | p :: r => if p.1 = k then (k, v) :: r else p :: mSet r k v

/-- Modelled fragment of `semver.Constraints`: the `*` wildcard used by
`Get` for the empty version, and a plain version string meaning exact
equality. Range operators and partial wildcards are outside the fragment. -/
inductive Constraint where
  | any : Constraint
  | exact (v : SemVer) : Constraint
deriving DecidableEq, Repr

/-- Models `semver.NewConstraint` on the fragment: `*` or an exact plain
version. -/
def parseConstraint (s : String) : Option Constraint :=
  if s = "*" then some Constraint.any else (parseVersion s).map Constraint.exact

/-- Models `Constraints.Check` on the fragment. -/
def Constraint.check : Constraint → SemVer → Bool
  | .any, _ => true
  | .exact v, t => decide (v = t)

/-- The loop body test of `Get`: an entry with an unparsable version is
skipped (continue), otherwise the constraint is checked. -/
def entryMatches (c : Constraint) (ver : BundleEntry) : Bool :=
  match parseVersion ver.Version with
  | none => false
  | some t => c.check t

/-- `IndexFile.Get` from `pkg/repo`, lifted to the entries map: absent name
is `ErrNoBundleName`; empty slice is `ErrNoBundleVersion`; an empty version
becomes the `*` constraint, otherwise the version must parse as a
constraint; the first entry (in slice order) whose parsable version checks
against the constraint is returned, else the formatted not-found error. -/
def getEntry (m : List (String × List BundleEntry)) (name version : String) :
    Except RepoErr BundleEntry :=
  match mGet m name with
  | none => .error .noBundleName
  | some vs =>
    if vs.isEmpty then .error .noBundleVersion
    else
      match (if version = "" then some Constraint.any else parseConstraint version) with
      | none => .error (.constraintParse version)
      | some constraint =>
        match vs.find? (entryMatches constraint) with
        | some ver => .ok ver
        | none => .error (.noVersionFound name version)

/-- IndexFile from `pkg/repo`: API version, generation timestamp, the
entries map (association-list model) and trusted public keys. -/
structure IndexFile where
  APIVersion : String
  Generated : Nat
  Entries : List (String × List BundleEntry)
  PublicKeys : List String
deriving DecidableEq, Repr

/-- `IndexFile.Get`. -/
def IndexFile.Get (i : IndexFile) (name version : String) :
    Except RepoErr BundleEntry :=
  getEntry i.Entries name version

/-- `IndexFile.Has`: true iff `Get` succeeds. -/
def IndexFile.Has (i : IndexFile) (name version : String) : Bool :=
  match i.Get name version with
  | .ok _ => true
  | .error _ => false

/-- `IndexFile.Add`: appends under the entry name, creating the slice when
the key is absent. Does not sort. -/
def IndexFile.Add (i : IndexFile) (e : BundleEntry) : IndexFile :=
  { i with Entries :=
      match mGet i.Entries e.Name with
      | none => mSet i.Entries e.Name [e]
      | some ee => mSet i.Entries e.Name (ee ++ [e]) }

/-- `IndexFile.SortEntries`: sorts every name's slice with the reversed
version comparator. -/
def IndexFile.SortEntries (i : IndexFile) : IndexFile :=
  { i with Entries := i.Entries.map (fun p => (p.1, sortEntriesList p.2)) }

/-- Boolean form of `Has` on a bare entries map, as used inside `Merge`
(only the receiver's entries influence `Get`). -/
def hasEntry (m : List (String × List BundleEntry)) (name version : String) :
    Bool :=
  match getEntry m name version with
  | .ok _ => true
  | .error _ => false

/-- One iteration of `IndexFile.Merge`: the entry is appended under its
name unless `Has` already succeeds for its name and version. -/
def mergeStep (m : List (String × List BundleEntry)) (cv : BundleEntry) :
    List (String × List BundleEntry) :=
  if hasEntry m cv.Name cv.Version then m
  else mSet m cv.Name (mGetD m cv.Name ++ [cv])

/-- The body of `IndexFile.Merge`: for each entry of the other index (taken
in iteration order), perform `mergeStep`. -/
def mergeEntries (m : List (String × List BundleEntry)) :
    List BundleEntry → List (String × List BundleEntry)
  | [] => m
  | cv :: rest => mergeEntries (mergeStep m cv) rest

/-- All entries of an entries map, flattened in iteration order. -/
def entriesOf (m : List (String × List BundleEntry)) : List BundleEntry :=
  (m.map Prod.snd).flatten

/-- `IndexFile.Merge`. -/
def IndexFile.Merge (a b : IndexFile) : IndexFile :=
  { a with Entries := mergeEntries a.Entries (entriesOf b.Entries) }

/-- `loadIndex` from `pkg/repo`, taken after `json.Unmarshal`: an unmarshal
error is propagated; otherwise the index is re-sorted and returned. The
source declares `ErrNoAPIVersion` and documents that `loadIndex` fails with
it when the API version is unset, but the implementation performs no such
check. -/
def loadIndex (unmarshalled : Except String IndexFile) :
    Except String IndexFile :=
  match unmarshalled with
  | .error e => .error e
  | .ok i => .ok i.SortEntries

/-- InvocationImage from `pkg/bundle`. -/
structure InvocationImage where
  ImageType : String
  Image : String
deriving DecidableEq, Repr

/-- Bundle manifest from `pkg/bundle`; the fields not consulted by the
modelled operations (images, parameter and credential declarations) are
omitted. -/
structure Bundle where
  Name : String
  Version : String
  InvocationImage : InvocationImage
deriving DecidableEq, Repr

/-- `validateDockerish` from the install command: the image reference must
contain a colon (an explicit version component). The Go function returns an
error or nil; the model returns the error message or `none`. -/
def validateDockerish (s : String) : Option String :=
  if s.data.contains ':' then none else some "version is required"

/-- `validateImage` from the install command: docker and oci image types are
checked for a version component, all other types are accepted. -/
def validateImage (img : InvocationImage) : Option String :=
  match img.ImageType with
  | "docker" => validateDockerish img.Image
  | "oci" => validateDockerish img.Image
  | _ => none

/-- Parameter values decoded from a values file (`map[string]interface⟨⟩`),
modelled as a string association list. -/
def Params := List (String × String)
deriving DecidableEq, Repr

/-- Claim from `pkg/claim` as populated by the install command: installation
name, invocation image reference, image type and optional parameter values. -/
structure Claim where
  Name : String
  Bundle : String
  ImageType : String
  Parameters : Option Params
deriving DecidableEq, Repr

/-- External collaborators of the install command, passed as capabilities:
driver preparation, credential loading, values-file decoding, the driver
`Install.Run` action and claim storage `Store`. Fallible collaborators
return the Go error message on failure. -/
structure InstallEnv where
  prepareDriver : String → Except String String
  loadCredentials : String → Except String String
  parseValues : String → Except String Params
  run : String → Claim → String → Option String
  store : Claim → Option String

/-- The optional values-file decode of the install command: an empty flag
leaves the parameters nil, otherwise the decoded values are stored. -/
def resolveParams (env : InstallEnv) (valuesFile : String) :
    Except String (Option Params) :=
  if valuesFile = "" then .ok none
  else
    match env.parseValues valuesFile with
    | .error e => .error e
    | .ok vals => .ok (some vals)

/-- The claim as populated by the install command (a fresh claim keyed by
the installation name, carrying the invocation image, the image type and
the optional decoded parameters). -/
def mkClaim (installationName : String) (b : Bundle) (params : Option Params) :
    Claim :=
  { Name := installationName
    Bundle := b.InvocationImage.Image
    ImageType := b.InvocationImage.ImageType
    Parameters := params }

/-- The body of `newInstallCmd.RunE` from the point where the bundle is
loaded (validate image, prepare driver, load credentials, build the claim,
run the install action, store the claim). The first component records the
sequence of `Store` invocations in order; the second is the returned error.
Faithful to the tail: the execution error `err` and the storage error
`err2` are both computed, then `err` is returned wrapped when non-nil, else
`err2` is returned. -/
def installCore (env : InstallEnv) (installationName installDriver
    credentialsFile valuesFile : String) (b : Bundle) :
    List Claim × Except String Unit :=
  match validateImage b.InvocationImage with
  | some e => ([], .error e)
  | none =>
    match env.prepareDriver installDriver with
    | .error e => ([], .error e)
    | .ok driverImpl =>
      match env.loadCredentials credentialsFile with
      | .error e => ([], .error e)
      | .ok creds =>
        match resolveParams env valuesFile with
        | .error e => ([], .error e)
        | .ok params =>
          let c := mkClaim installationName b params
          let err := env.run driverImpl c creds
          let err2 := env.store c
          ([c],
            match err with
            | some e => .error ("Install step failed: " ++ e)
            | none =>
              match err2 with
              | some e2 => .error e2
              | none => .ok ())

/-- Signing keyring capability (`signature.KeyRing`): the key list and the
named-key lookup used when a signer identity is requested. Keys are opaque
strings. -/
structure KeyRing where
  keys : List String
  keyFor : String → Except String String

/-- Capabilities of the local content store: the `fmt` rendering of a
bundle used on the insecure path, the digest provider, the keyring loader
and the clearsign operation. -/
structure StoreEnv where
  fmtV : Bundle → String
  digestOf : String → Except String String
  loadKeyRing : Except String KeyRing
  clearsign : String → Bundle → Except String String
  bundlesDir : String

/-- A file written by the store: its path and its exact contents. -/
structure WriteRec where
  path : String
  data : String
deriving DecidableEq, Repr

/-- `LocalStore.signAndWriteBundle` from `pkg/store/local`: on the insecure
path the rendered bundle bytes are digested and written as-is; otherwise
the keyring is loaded (failing when empty or when the requested signer is
absent), the bundle is clearsigned with the selected key, a newline is
appended, and the signed bytes are digested and written. The filesystem
write is modelled by returning the written record next to the digest. -/
def signAndWriteBundle (env : StoreEnv) (bf : Bundle) (insecure : Bool)
    (signer : String) : Except String (String × WriteRec) :=
  if insecure then
    let data := env.fmtV bf
    match env.digestOf data with
    | .error e => .error ("cannot compute digest from bundle: " ++ e)
    | .ok d => .ok (d, ⟨env.bundlesDir ++ "/" ++ d, data⟩)
  else
    match env.loadKeyRing with
    | .error e => .error ("cannot load keyring: " ++ e)
    | .ok kr =>
      if kr.keys.length = 0 then
        .error "no signing keys are present in the keyring"
      else
        match (if signer = "" then .ok (kr.keys.headD "") else kr.keyFor signer :
            Except String String) with
        | .error e => .error e
        | .ok key =>
          match env.clearsign key bf with
          | .error e => .error ("cannot sign bundle: " ++ e)
          | .ok signed =>
            let data := signed ++ "\n"
            match env.digestOf data with
            | .error e => .error ("cannot compute digest from bundle: " ++ e)
            | .ok d => .ok (d, ⟨env.bundlesDir ++ "/" ++ d, data⟩)

/-- Result of one `http.Get` in the mirror loop: a transport error or a
status code with a body. -/
inductive FetchResult where
  | netErr (e : String) : FetchResult
  | status (code : Nat) (body : String) : FetchResult
deriving DecidableEq, Repr

/-- Capabilities of the mirror-fallback loop of `getBundleFile`: HTTP
fetching, manifest parsing, the cache write and the cache directory. -/
structure MirrorEnv where
  fetch : String → FetchResult
  parse : String → Except String Bundle
  write : String → Bundle → Option String
  cacheDir : String

/-- The Go `%v` rendering of a string slice, used in the final error of the
mirror loop. -/
def urlsMsg (us : List String) : String :=
  "[" ++ String.intercalate " " us ++ "]"

/-- The mirror-fallback loop of `getBundleFile` over the remaining URL
list. A transport error aborts immediately; a non-200 status is logged
(first component collects the log lines) and the next URL is tried; on a
200 status the body is parsed as a bundle (a parse error aborts), written
to `<cache>/<name>-<version>.json` (a write error aborts) and that path is
returned; an exhausted list yields the error naming all URLs of the entry. -/
def getBundleFileLoop (env : MirrorEnv) (entry : BundleEntry) :
    List String → List String × Except String String
  | [] =>
    ([], .error ("unable to fetch " ++ entry.Name ++ " " ++ entry.Version ++
      ": no requests to the following URLs succeeded: " ++ urlsMsg entry.URLs))
  | url :: rest =>
    match env.fetch url with
    | .netErr e => ([], .error e)
    | .status code body =>
      if code ≠ 200 then
        let r := getBundleFileLoop env entry rest
        (("request to " ++ url ++ " responded with a non-200 status code: " ++
          toString code) :: r.1, r.2)
      else
        match env.parse body with
        | .error e => ([], .error e)
        | .ok b =>
          let path := env.cacheDir ++ "/" ++ b.Name ++ "-" ++ b.Version ++ ".json"
          match env.write path b with
          | some e => ([], .error e)
          | none => ([], .ok path)

/-- The mirror phase of `getBundleFile`: iterate the URL list of the
decoded index entry. -/
def getBundleFileMirrors (env : MirrorEnv) (entry : BundleEntry) :
    List String × Except String String :=
  getBundleFileLoop env entry entry.URLs

/-- Splits a character list at the first occurrence of the three-character
protocol separator, as `strings.SplitN(s, a, 2)` does for the separator
used by `getBundleFile`. -/
def splitOnProto : List Char → Option (List Char × List Char)
  | [] => none
  | ':' :: '/' :: '/' :: rest => some ([], rest)
  | c :: rest => (splitOnProto rest).map (fun p => (c :: p.1, p.2))

/-- Splits a character list at its first slash, returning the parts before
and after it. -/
def splitAtFirstSlash : List Char → Option (List Char × List Char)
  | [] => none
  | '/' :: rest => some ([], rest)
  | c :: rest => (splitAtFirstSlash rest).map (fun p => (c :: p.1, p.2))

/-- Splits a character list at its first colon, returning the parts before
and after it. -/
def splitAtFirstColon : List Char → Option (List Char × List Char)
  | [] => none
  | ':' :: rest => some ([], rest)
  | c :: rest => (splitAtFirstColon rest).map (fun p => (c :: p.1, p.2))

/-- True when the list holds a dot or a colon (`strings.ContainsAny(s, a)`
for the two domain-marker characters). -/
def containsDotOrColon (cs : List Char) : Bool :=
  cs.any (fun c => c = '.' || c = ':')

/-- A parsed, normalized image reference: domain, path and optional tag.
Digest references are outside the modelled fragment. -/
structure NamedRef where
  domain : String
  path : String
  tag : Option String
deriving DecidableEq, Repr

/-- Models `splitDockerDomain` of the docker reference normalizer: a name
whose first component (up to the first slash) has no dot or colon and is
not localhost gets the default domain docker.io, and a docker.io name
without a slash gets the official `library/` path part. The legacy
index.docker.io domain is rewritten to docker.io. -/
def splitDockerDomain (name : String) : String × String :=
  let p :=
    match splitAtFirstSlash name.data with
    | none => ("docker.io", name)
    | some q =>
      if !containsDotOrColon q.1 && String.mk q.1 ≠ "localhost" then
        ("docker.io", name)
      else (String.mk q.1, String.mk q.2)
  let domain := if p.1 = "index.docker.io" then "docker.io" else p.1
  if domain = "docker.io" && !p.2.data.contains '/' then
    (domain, "library/" ++ p.2)
  else (domain, p.2)

/-- Models `reference.ParseNormalizedNamed` on the fragment exercised by
`getBundleFile`: tagged or untagged names without digests or port numbers.
The domain is split off with the docker normalization rules, the tag (when
present) is split at the first colon of the remainder, and the repository
path must be nonempty and lowercase. -/
def parseNormalizedNamed (s : String) : Except String NamedRef :=
  let d := splitDockerDomain s
  let pt :=
    match splitAtFirstColon d.2.data with
    | none => (d.2, (none : Option String))
    | some q => (String.mk q.1, some (String.mk q.2))
  if pt.1.data.any (fun c => c.isUpper) then
    .error "invalid reference format: repository name must be lowercase"
  else if pt.1 = "" then .error "invalid reference format"
  else .ok ⟨d.1, pt.1, pt.2⟩

/-- The reference-resolution head of `getBundleFile`: protocol defaulting,
normalized parsing, tag defaulting to latest, the dead default-repository
substitution for an empty domain, and the lookup URL construction. The
network fetch that follows is covered by the mirror-loop model. -/
def getBundleURL (defaultRepository : String) (bundleName : String) :
    Except String String :=
  let pr :=
    match splitOnProto bundleName.data with
    | some q => (String.mk q.1, String.mk q.2)
    | none => ("https", bundleName)
  match parseNormalizedNamed pr.2 with
  | .error e => .error ("failed to parse image name: " ++ pr.2 ++ ": " ++ e)
  | .ok nref =>
    let ref : NamedRef :=
      if nref.tag = none then { nref with tag := some "latest" } else nref
    let domain := if ref.domain = "" then defaultRepository else ref.domain
    .ok (pr.1 ++ "://" ++ domain ++ "/repositories/" ++ ref.path ++ "/tags/" ++
      ref.tag.getD "")

/-- True when the second list ends with the first
(`strings.HasSuffix(s, suffix)` with the arguments ordered suffix first). -/
def suffixOf (suf s : List Char) : Bool :=
  suf.reverse.isPrefixOf s.reverse

/-- Models `strings.HasSuffix`. -/
def strHasSuffix (s suf : String) : Bool :=
  suffixOf suf.data s.data

/-- Splits a path at its last slash: the part up to and including the last
slash, and the file part after it (`filepath.Split`). -/
def filepathSplit (p : String) : String × String :=
  match splitAtFirstSlash p.data.reverse with
  | none => ("", p)
  | some q => (String.mk q.2.reverse ++ "/", String.mk q.1.reverse)

/-- Plain path joining used on the URL-join fallback (`filepath.Join` for
the nonempty two-argument shapes the generator produces). -/
def filepathJoin (a b : String) : String :=
  if a = "" then b else if b = "" then a else a ++ "/" ++ b

/-- Models `filepath.Rel(dir, f)` for the paths the generator builds: every
globbed file lies under the directory, so the directory plus separator is
stripped from the front. -/
def relPath (dir f : String) : String :=
  if (dir.data ++ ['/']).isPrefixOf f.data then
    String.mk (f.data.drop (dir.data.length + 1))
  else f

/-- External collaborators of `GenerateFromDirectory`: the manifest loader,
the file digest provider, URL joining (which can fail, triggering the
plain path-join fallback) and the generation timestamp. -/
structure GenEnv where
  load : String → Except String Bundle
  digestFile : String → Except String String
  urlJoin : String → String → Except String String
  now : Nat

/-- `NewIndexFile` from `pkg/repo`. -/
def NewIndexFile (now : Nat) : IndexFile :=
  { APIVersion := "v1", Generated := now, Entries := [], PublicKeys := [] }

/-- The per-file loop of the catalog-tracked `GenerateFromDirectory`: files
whose path ends in index.json are skipped entirely; every other file is
loaded (failure aborts), digested (failure aborts), turned into an entry
with a URL joined from the base URL (falling back to path joining), added
to the in-memory index, and recorded as a tag-file write under
`<dir>/repositories/<name>/tags/<version>`. -/
def genProcess (env : GenEnv) (dir baseURL : String) :
    List String → IndexFile × List (String × BundleEntry) →
    Except String (IndexFile × List (String × BundleEntry))
  | [], acc => .ok acc
  | bundleFile :: rest, acc =>
    if strHasSuffix bundleFile "index.json" then
      genProcess env dir baseURL rest acc
    else
      match env.load bundleFile with
      | .error e => .error e
      | .ok b =>
        let fname0 := relPath dir bundleFile
        let sp := filepathSplit fname0
        let parentURL :=
          match env.urlJoin baseURL sp.1 with
          | .ok u => u
          | .error _ => filepathJoin baseURL sp.1
        match env.digestFile bundleFile with
        | .error e => .error e
        | .ok hash =>
          let u :=
            if parentURL ≠ "" then
              match env.urlJoin parentURL (filepathSplit sp.2).2 with
              | .ok w => w
              | .error _ => filepathJoin parentURL (filepathSplit sp.2).2
            else sp.2
          let entry : BundleEntry :=
            { Name := b.Name, Version := b.Version, Home := "", URLs := [u]
              Description := "", Keywords := [], Maintainers := []
              APIVersion := "v1", Digest := hash, Added := env.now }
          let tagPath :=
            filepathJoin (filepathJoin (filepathJoin dir "repositories")
              entry.Name) (filepathJoin "tags" entry.Version)
          genProcess env dir baseURL rest
            (acc.1.Add entry, acc.2 ++ [(tagPath, entry)])

/-- The catalog-tracked `GenerateFromDirectory` over an already-globbed
file list: process every file, then sort the index. The final index-file
write is the returned index; the tag-file writes are the returned list. -/
def GenerateFromDirectory (env : GenEnv) (dir baseURL : String)
    (bundles : List String) :
    Except String (IndexFile × List (String × BundleEntry)) :=
  match genProcess env dir baseURL bundles (NewIndexFile env.now, []) with
  | .error e => .error e
  | .ok acc => .ok (acc.1.SortEntries, acc.2)

/-- True when an entry's version string parses as a semantic version. -/
def entryParsable (e : BundleEntry) : Bool :=
  (parseVersion e.Version).isSome

/-- Canonical descending order between entries: any entry is at or above an
unparsable one, and a parsable entry is at or above every parsable entry of
smaller or equal version. `Pairwise` of this relation states the catalog
invariant the spec calls canonical order. -/
def entryGEb (x y : BundleEntry) : Bool :=
  match parseVersion y.Version with
  | none => true
  | some vy =>
    match parseVersion x.Version with
    | none => false
    | some vx => !versionLt vx vy

/-- Number of entries with unparsable versions in a slice. -/
def unparsableCount (l : List BundleEntry) : Nat :=
  l.countP (fun e => !(entryParsable e))

/-- Well-formed entries map: every entry is stored under its own name. -/
@[reducible] def wfEntries (m : List (String × List BundleEntry)) : Prop :=
  ∀ p ∈ m, ∀ e ∈ p.2, e.Name = p.1

/-- The map keys are distinct, as Go map semantics guarantees. -/
@[reducible] def nodupKeys (m : List (String × List BundleEntry)) : Prop :=
  (m.map Prod.fst).Nodup

/-- All entries of a map have parsable versions. -/
@[reducible] def allParsable (m : List (String × List BundleEntry)) : Prop :=
  ∀ p ∈ m, ∀ e ∈ p.2, entryParsable e = true

/-- Sample entry under the name foo with the given version, used by the
concrete witnesses and counterexamples. -/
def sampleEntry (v : String) : BundleEntry :=
  ⟨"foo", v, "", [], "", [], [], "v1", "digest-" ++ v, 0⟩

/-- Sample bundle with a versioned docker invocation image. -/
def bundle0 : Bundle :=
  ⟨"example", "0.1.0", ⟨"docker", "img:0.1.0"⟩⟩

/-- Install environment in which the driver run and the claim store both
fail, exercising the two-error case of the orchestrator. -/
def envBothFail : InstallEnv :=
  { prepareDriver := fun _ => .ok "docker"
    loadCredentials := fun _ => .ok "creds"
    parseValues := fun _ => .ok []
    run := fun _ _ _ => some "exec boom"
    store := fun _ => some "store boom" }

/-- Install environment in which only the driver run fails. -/
def envRunFails : InstallEnv :=
  { envBothFail with store := fun _ => none }

/-- Content-store environment with a deterministic rendering and digest,
used by the store witnesses. -/
def envStore0 : StoreEnv :=
  { fmtV := fun b => "render " ++ b.Name
    digestOf := fun s => .ok ("sha-" ++ s)
    loadKeyRing := .ok ⟨["key1", "key2"], fun n => .error ("no key " ++ n)⟩
    clearsign := fun k b => .ok ("signed " ++ k ++ " " ++ b.Name)
    bundlesDir := "bundles" }

/-- Mirror environment whose first URL fails at the transport level while
the second would succeed. -/
def mirrorEnv8 : MirrorEnv :=
  { fetch := fun u =>
      if u = "u1" then .netErr "dial tcp: connection refused"
      else .status 200 "body"
    parse := fun _ => .ok ⟨"hello", "0.1.0", ⟨"docker", "img:1"⟩⟩
    write := fun _ _ => none
    cacheDir := "cache" }

/-- Mirror environment in which every URL answers with a non-200 status. -/
def mirrorEnvAll404 : MirrorEnv :=
  { mirrorEnv8 with fetch := fun _ => .status 404 "missing" }

/-- Index entry with two mirror URLs. -/
def entry8 : BundleEntry :=
  { sampleEntry "0.1.0" with URLs := ["u1", "u2"] }

/-- Entry whose version string does not parse as a semantic version. -/
def badVerEntry : BundleEntry :=
  ⟨"foo", "garbage", "", [], "", [], [], "v1", "dg", 0⟩

/-- Empty catalog. -/
def idxA5 : IndexFile := ⟨"v1", 0, [], []⟩

/-- Catalog holding only the unparsable-version entry. -/
def idxB5 : IndexFile := ⟨"v1", 0, [("foo", [badVerEntry])], []⟩

/-- Catalog with two unparsable-version entries under one name. -/
def idxTwoBad : IndexFile :=
  ⟨"v1", 0, [("foo", [sampleEntry "bad1", sampleEntry "bad2"])], []⟩

/-- Sorted catalog with two parsable entries and one unparsable entry under
foo, plus a name mapping to the empty slice. -/
def idxC3 : IndexFile :=
  ⟨"v1", 0,
    [("foo", [sampleEntry "2.1.0", sampleEntry "1.0.0", sampleEntry "bad"]),
     ("empty", [])], []⟩

/-- Unsorted catalog with an empty API version, as decoded from a document
that lacks the field. -/
def idx6 : IndexFile :=
  ⟨"", 7, [("foo", [sampleEntry "1.0.0", sampleEntry "2.1.0"])], []⟩

/-- Entry under the name bar with a parsable version. -/
def barEntry : BundleEntry :=
  ⟨"bar", "3.0.0", "", [], "", [], [], "v1", "db", 0⟩

/-- Catalog A for the merge witness: well-formed, distinct keys, parsable
versions. -/
def idxMergeA : IndexFile :=
  ⟨"v1", 0, [("foo", [sampleEntry "1.0.0"])], []⟩

/-- Catalog B for the merge witness: overlaps A on (foo, 1.0.0), adds
(foo, 2.1.0) and (bar, 3.0.0). -/
def idxMergeB : IndexFile :=
  ⟨"v1", 0,
    [("foo", [sampleEntry "2.1.0", sampleEntry "1.0.0"]),
     ("bar", [barEntry])], []⟩

/-- Once the install command reaches the claim-construction step, the rest
of the run is determined by the driver-run and store outcomes on the
constructed claim. -/
theorem installCore_run_cases (env : InstallEnv) (n d cf vf : String)
    (b : Bundle) (dr creds : String) (params : Option Params)
    (hv : validateImage b.InvocationImage = none)
    (hd : env.prepareDriver d = .ok dr)
    (hc : env.loadCredentials cf = .ok creds)
    (hp : resolveParams env vf = .ok params) :
    installCore env n d cf vf b =
      ([mkClaim n b params],
        match env.run dr (mkClaim n b params) creds with
        | some e => .error ("Install step failed: " ++ e)
        | none =>
          match env.store (mkClaim n b params) with
          | some e2 => .error e2
          | none => .ok ()) := by
  unfold installCore
  rw [hv, hd, hc, hp]

/-- C1. The claim states that when both the driver execution and the claim
persistence fail, the persistence error is returned. The code returns the
wrapped execution error in that case: with both collaborators failing, the
install command returns the wrapped execution error and not the storage
error. -/
theorem C1_counterexample :
    (installCore envBothFail "rel" "docker" "" "" bundle0).2 =
      .error "Install step failed: exec boom" ∧
    envBothFail.store (mkClaim "rel" bundle0 none) = some "store boom" ∧
    ¬ (installCore envBothFail "rel" "docker" "" "" bundle0).2 =
        .error "store boom" := by
  refine ⟨rfl, rfl, ?_⟩
  intro h
  rw [show (installCore envBothFail "rel" "docker" "" "" bundle0).2 =
      .error "Install step failed: exec boom" from rfl] at h
  simp only [Except.error.injEq] at h
  exact absurd h (by decide)

/-- C1 (amended). Once the install reaches driver execution: when the
execution fails, the wrapped execution error is returned regardless of the
persistence outcome; the persistence error is returned only when the
execution succeeded. -/
theorem C1_execution_error_priority (env : InstallEnv) (n d cf vf : String)
    (b : Bundle) (dr creds : String) (params : Option Params)
    (hv : validateImage b.InvocationImage = none)
    (hd : env.prepareDriver d = .ok dr)
    (hc : env.loadCredentials cf = .ok creds)
    (hp : resolveParams env vf = .ok params) :
    (∀ e, env.run dr (mkClaim n b params) creds = some e →
      (installCore env n d cf vf b).2 =
        .error ("Install step failed: " ++ e)) ∧
    (env.run dr (mkClaim n b params) creds = none →
      (installCore env n d cf vf b).2 =
        (match env.store (mkClaim n b params) with
         | some e2 => .error e2
         | none => .ok ())) := by
  rw [installCore_run_cases env n d cf vf b dr creds params hv hd hc hp]
  constructor
  · intro e he
    rw [he]
  · intro he
    rw [he]

/-- Closed witness for C1 (amended) at a concrete environment in which both
the driver run and the store fail. -/
theorem C1_execution_error_priority_witness :
    validateImage bundle0.InvocationImage = none ∧
    envBothFail.prepareDriver "docker" = .ok "docker" ∧
    envBothFail.loadCredentials "" = .ok "creds" ∧
    resolveParams envBothFail "" = .ok none ∧
    ((∀ e, envBothFail.run "docker" (mkClaim "rel" bundle0 none) "creds" =
        some e →
      (installCore envBothFail "rel" "docker" "" "" bundle0).2 =
        .error ("Install step failed: " ++ e)) ∧
    (envBothFail.run "docker" (mkClaim "rel" bundle0 none) "creds" = none →
      (installCore envBothFail "rel" "docker" "" "" bundle0).2 =
        (match envBothFail.store (mkClaim "rel" bundle0 none) with
         | some e2 => .error e2
         | none => .ok ()))) :=
  ⟨rfl, rfl, rfl, rfl,
    C1_execution_error_priority envBothFail "rel" "docker" "" "" bundle0
      "docker" "creds" none rfl rfl rfl rfl⟩

/-- C2. Once the install reaches driver execution, the claim store is
invoked exactly once with the constructed claim, whatever the run outcome;
and when only the execution fails, the returned error is the wrapped
execution error (the store invocation having been recorded all the same). -/
theorem C2_store_always_invoked (env : InstallEnv) (n d cf vf : String)
    (b : Bundle) (dr creds : String) (params : Option Params)
    (hv : validateImage b.InvocationImage = none)
    (hd : env.prepareDriver d = .ok dr)
    (hc : env.loadCredentials cf = .ok creds)
    (hp : resolveParams env vf = .ok params) :
    (installCore env n d cf vf b).1 = [mkClaim n b params] ∧
    (∀ e, env.run dr (mkClaim n b params) creds = some e →
      env.store (mkClaim n b params) = none →
      (installCore env n d cf vf b).2 =
        .error ("Install step failed: " ++ e)) := by
  rw [installCore_run_cases env n d cf vf b dr creds params hv hd hc hp]
  constructor
  · rfl
  · intro e he _
    rw [he]

/-- Closed witness for C2 at a concrete environment in which only the
driver run fails. -/
theorem C2_store_always_invoked_witness :
    validateImage bundle0.InvocationImage = none ∧
    envRunFails.prepareDriver "docker" = .ok "docker" ∧
    envRunFails.loadCredentials "" = .ok "creds" ∧
    resolveParams envRunFails "" = .ok none ∧
    ((installCore envRunFails "rel" "docker" "" "" bundle0).1 =
        [mkClaim "rel" bundle0 none] ∧
    (∀ e, envRunFails.run "docker" (mkClaim "rel" bundle0 none) "creds" =
        some e →
      envRunFails.store (mkClaim "rel" bundle0 none) = none →
      (installCore envRunFails "rel" "docker" "" "" bundle0).2 =
        .error ("Install step failed: " ++ e))) :=
  ⟨rfl, rfl, rfl, rfl,
    C2_store_always_invoked envRunFails "rel" "docker" "" "" bundle0
      "docker" "creds" none rfl rfl rfl rfl⟩

/-- C6. The claim states that a document that unmarshals without an API
version fails to load with the NoAPIVersion error. The source documents
this on `loadIndex` itself, but the implementation performs no API-version
check: loading an index with an empty API version succeeds, returning the
re-sorted catalog (the re-sort half of the claim does hold). -/
theorem C6_loadIndex_missing_apiVersion_loads :
    idx6.APIVersion = "" ∧
    loadIndex (.ok idx6) =
      .ok ⟨"", 7, [("foo", [sampleEntry "2.1.0", sampleEntry "1.0.0"])], []⟩ ∧
    (∀ i : IndexFile, loadIndex (.ok i) = .ok i.SortEntries) :=
  ⟨rfl, rfl, fun _ => rfl⟩

/-- The insecure path of the store, written as one match on the digest
provider. -/
theorem signAndWriteBundle_insecure (env : StoreEnv) (bf : Bundle)
    (signer : String) :
    signAndWriteBundle env bf true signer =
      (match env.digestOf (env.fmtV bf) with
       | .error e => .error ("cannot compute digest from bundle: " ++ e)
       | .ok d => .ok (d, ⟨env.bundlesDir ++ "/" ++ d, env.fmtV bf⟩)) := rfl

/-- C7. Whenever the store succeeds, the returned digest is the digest of
the exact bytes written, and the file path is the digest under the bundles
directory; on the insecure path the bytes written are exactly the rendered
input bundle. -/
theorem C7_store_digest_integrity (env : StoreEnv) (bf : Bundle)
    (insecure : Bool) (signer : String) (d : String) (w : WriteRec)
    (h : signAndWriteBundle env bf insecure signer = .ok (d, w)) :
    env.digestOf w.data = .ok d ∧ w.path = env.bundlesDir ++ "/" ++ d ∧
    (insecure = true → w.data = env.fmtV bf) := by
  cases insecure with
  | true =>
    rw [signAndWriteBundle_insecure] at h
    cases hD : env.digestOf (env.fmtV bf) with
    | error e =>
      rw [hD] at h
      exact absurd h (by simp)
    | ok dd =>
      rw [hD] at h
      simp only [Except.ok.injEq, Prod.mk.injEq] at h
      obtain ⟨h1, h2⟩ := h
      subst h1
      subst h2
      exact ⟨hD, rfl, fun _ => rfl⟩
  | false =>
    unfold signAndWriteBundle at h
    simp only [Bool.false_eq_true, if_false] at h
    cases hK : env.loadKeyRing with
    | error e =>
      rw [hK] at h
      exact absurd h (by simp)
    | ok kr =>
      rw [hK] at h
      dsimp only at h
      by_cases hl : kr.keys.length = 0
      · rw [if_pos hl] at h
        exact absurd h (by simp)
      · rw [if_neg hl] at h
        cases hKey : (if signer = "" then .ok (kr.keys.headD "")
            else kr.keyFor signer : Except String String) with
        | error e =>
          rw [hKey] at h
          exact absurd h (by simp)
        | ok key =>
          rw [hKey] at h
          dsimp only at h
          cases hS : env.clearsign key bf with
          | error e =>
            rw [hS] at h
            exact absurd h (by simp)
          | ok signed =>
            rw [hS] at h
            dsimp only at h
            cases hD : env.digestOf (signed ++ "\n") with
            | error e =>
              rw [hD] at h
              exact absurd h (by simp)
            | ok dd =>
              rw [hD] at h
              simp only [Except.ok.injEq, Prod.mk.injEq] at h
              obtain ⟨h1, h2⟩ := h
              subst h1
              subst h2
              exact ⟨hD, rfl, fun hff => Bool.noConfusion hff⟩

/-- Closed witness for C7 on both store paths of a concrete environment. -/
theorem C7_store_digest_integrity_witness :
    (signAndWriteBundle envStore0 bundle0 true "" =
      .ok ("sha-render example",
        ⟨"bundles/sha-render example", "render example"⟩) ∧
    (envStore0.digestOf "render example" = .ok "sha-render example" ∧
      "bundles/sha-render example" = envStore0.bundlesDir ++ "/" ++
        "sha-render example" ∧
      (true = true → "render example" = envStore0.fmtV bundle0))) ∧
    (signAndWriteBundle envStore0 bundle0 false "" =
      .ok ("sha-signed key1 example\n",
        ⟨"bundles/sha-signed key1 example\n", "signed key1 example\n"⟩) ∧
    (envStore0.digestOf "signed key1 example\n" =
        .ok "sha-signed key1 example\n" ∧
      "bundles/sha-signed key1 example\n" = envStore0.bundlesDir ++ "/" ++
        "sha-signed key1 example\n" ∧
      (false = true → "signed key1 example\n" = envStore0.fmtV bundle0))) :=
  ⟨⟨rfl, C7_store_digest_integrity envStore0 bundle0 true "" _ _ rfl⟩,
   ⟨rfl, C7_store_digest_integrity envStore0 bundle0 false "" _ _ rfl⟩⟩

/-- C8. The claim states that any mirror fetch failure is logged and
skipped. A transport-level fetch failure aborts resolution immediately: on
an entry whose first URL fails at the transport level while the second
would answer 200, the loop returns the transport error without trying the
second URL. -/
theorem C8_counterexample :
    (getBundleFileMirrors mirrorEnv8 entry8).2 =
      .error "dial tcp: connection refused" ∧
    (getBundleFileMirrors mirrorEnv8 entry8).1 = [] ∧
    mirrorEnv8.fetch "u2" = .status 200 "body" ∧
    getBundleFileLoop mirrorEnv8 entry8 ["u2"] =
      ([], .ok "cache/hello-0.1.0.json") :=
  ⟨rfl, rfl, rfl, rfl⟩

/-- C8 (amended). In the mirror loop: a non-200 status is logged and the
remaining URLs are tried; the first 200 response whose body parses and
caches is returned as `<cache>/<name>-<version>.json`; a transport error
or a body parse error aborts immediately; and when every URL answers a
non-200 status, the loop fails with the error naming all URLs of the
entry. -/
theorem C8_mirror_loop_behavior (env : MirrorEnv) (entry : BundleEntry) :
    (∀ url rest code body, env.fetch url = .status code body → code ≠ 200 →
      getBundleFileLoop env entry (url :: rest) =
        (("request to " ++ url ++ " responded with a non-200 status code: " ++
            toString code) :: (getBundleFileLoop env entry rest).1,
          (getBundleFileLoop env entry rest).2)) ∧
    (∀ url rest body b, env.fetch url = .status 200 body →
      env.parse body = .ok b →
      env.write (env.cacheDir ++ "/" ++ b.Name ++ "-" ++ b.Version ++ ".json")
          b = none →
      getBundleFileLoop env entry (url :: rest) =
        ([], .ok (env.cacheDir ++ "/" ++ b.Name ++ "-" ++ b.Version ++
          ".json"))) ∧
    (∀ url rest e, env.fetch url = .netErr e →
      getBundleFileLoop env entry (url :: rest) = ([], .error e)) ∧
    (∀ url rest body e, env.fetch url = .status 200 body →
      env.parse body = .error e →
      getBundleFileLoop env entry (url :: rest) = ([], .error e)) ∧
    (∀ urls, (∀ u ∈ urls, ∃ code body,
        env.fetch u = .status code body ∧ code ≠ 200) →
      (getBundleFileLoop env entry urls).2 =
        .error ("unable to fetch " ++ entry.Name ++ " " ++ entry.Version ++
          ": no requests to the following URLs succeeded: " ++
          urlsMsg entry.URLs)) := by
  refine ⟨?_, ?_, ?_, ?_, ?_⟩
  · intro url rest code body hf hc
    simp only [getBundleFileLoop]
    rw [hf]
    dsimp only
    rw [if_pos hc]
  · intro url rest body b hf hp hw
    simp only [getBundleFileLoop]
    rw [hf]
    dsimp only
    rw [if_neg (by simp)]
    rw [hp]
    dsimp only
    rw [hw]
  · intro url rest e hf
    simp only [getBundleFileLoop]
    rw [hf]
  · intro url rest body e hf hp
    simp only [getBundleFileLoop]
    rw [hf]
    dsimp only
    rw [if_neg (by simp)]
    rw [hp]
  · intro urls
    induction urls with
    | nil => intro _; rfl
    | cons u rest ih =>
      intro hall
      obtain ⟨code, body, hf, hc⟩ := hall u (by simp)
      simp only [getBundleFileLoop]
      rw [hf]
      dsimp only
      rw [if_pos hc]
      exact ih (fun v hv => hall v (by simp [hv]))

/-- Closed witness for C8 (amended) at the concrete environments. -/
theorem C8_mirror_loop_behavior_witness :
    (mirrorEnvAll404.fetch "u1" = .status 404 "missing" ∧ (404 : Nat) ≠ 200 ∧
      getBundleFileLoop mirrorEnvAll404 entry8 ["u1"] =
        (["request to u1 responded with a non-200 status code: 404"],
          (getBundleFileLoop mirrorEnvAll404 entry8 []).2)) ∧
    (mirrorEnv8.fetch "u2" = .status 200 "body" ∧
      mirrorEnv8.parse "body" = .ok ⟨"hello", "0.1.0", ⟨"docker", "img:1"⟩⟩ ∧
      getBundleFileLoop mirrorEnv8 entry8 ["u2"] =
        ([], .ok "cache/hello-0.1.0.json")) ∧
    (mirrorEnv8.fetch "u1" = .netErr "dial tcp: connection refused" ∧
      getBundleFileLoop mirrorEnv8 entry8 ["u1", "u2"] =
        ([], .error "dial tcp: connection refused")) ∧
    ((∀ u ∈ ["u1", "u2"], ∃ code body,
        mirrorEnvAll404.fetch u = .status code body ∧ code ≠ 200) ∧
      (getBundleFileLoop mirrorEnvAll404 entry8 ["u1", "u2"]).2 =
        .error ("unable to fetch " ++ entry8.Name ++ " " ++ entry8.Version ++
          ": no requests to the following URLs succeeded: " ++
          urlsMsg entry8.URLs)) := by
  have h404 := C8_mirror_loop_behavior mirrorEnvAll404 entry8
  have h8 := C8_mirror_loop_behavior mirrorEnv8 entry8
  refine ⟨⟨rfl, by decide, ?_⟩, ⟨rfl, rfl, ?_⟩, ⟨rfl, ?_⟩, ⟨?_, ?_⟩⟩
  · exact h404.1 "u1" [] 404 "missing" rfl (by decide)
  · exact h8.2.1 "u2" [] "body" ⟨"hello", "0.1.0", ⟨"docker", "img:1"⟩⟩
      rfl rfl rfl
  · exact h8.2.2.1 "u1" ["u2"] "dial tcp: connection refused" rfl
  · intro u hu
    refine ⟨404, "missing", rfl, by decide⟩
  · exact h404.2.2.2.2 ["u1", "u2"]
      (fun u hu => ⟨404, "missing", rfl, by decide⟩)

/-- C9. The claim states that a reference without a domain gets the
configured default repository domain. Docker-style normalization gives
every parsed reference a domain (docker.io, with the library path for
single-component names), so the configured default is never substituted:
the lookup URL for the bare reference is the docker.io URL whatever the
configured default repository is. -/
theorem C9_counterexample :
    getBundleURL "default.example.com" "bundle" =
      .ok "https://docker.io/repositories/library/bundle/tags/latest" ∧
    getBundleURL "other.example.net" "bundle" =
      .ok "https://docker.io/repositories/library/bundle/tags/latest" :=
  ⟨rfl, rfl⟩

/-- C9 (amended). The protocol defaults to https when no separator is
given; a missing tag defaults to latest; the lookup URL has the shape
protocol://domain/repositories/path/tags/tag; and a reference written
without a domain is normalized to the docker.io domain with the library
path (the configured default repository domain is never substituted, that
branch being unreachable after normalization). -/
theorem C9_lookup_url_shape (d : String) :
    getBundleURL d "name.example.org/bundle:1.0.0" =
      .ok "https://name.example.org/repositories/bundle/tags/1.0.0" ∧
    getBundleURL d "name.example.org/bundle" =
      .ok "https://name.example.org/repositories/bundle/tags/latest" ∧
    getBundleURL d "http://name.example.org/bundle:1.0.0" =
      .ok "http://name.example.org/repositories/bundle/tags/1.0.0" ∧
    getBundleURL d "bundle" =
      .ok "https://docker.io/repositories/library/bundle/tags/latest" :=
  ⟨rfl, rfl, rfl, rfl⟩

/-- In the generator loop, files whose path ends in index.json contribute
nothing: the loop result equals the result on the filtered file list. -/
theorem genProcess_filter_index (env : GenEnv) (dir baseURL : String) :
    ∀ (files : List String) (acc : IndexFile × List (String × BundleEntry)),
      genProcess env dir baseURL files acc =
        genProcess env dir baseURL
          (files.filter (fun f => !(strHasSuffix f "index.json"))) acc := by
  intro files
  induction files with
  | nil => intro acc; rfl
  | cons f rest ih =>
    intro acc
    by_cases h : strHasSuffix f "index.json" = true
    · rw [List.filter_cons_of_neg (by simp [h])]
      simp only [genProcess, h, if_true]
      exact ih acc
    · rw [List.filter_cons_of_pos (by simp [h])]
      simp only [genProcess, h, if_false]
      simp only [ih]

/-- C10. Every discovered file whose path ends with the suffix index.json
is skipped entirely by the catalog-tracked generator: the generated index
and tag-file writes equal those of the run on the file list with all such
paths removed; and the suffix test catches subdirectory index files as
well as files merely ending in index.json. -/
theorem C10_generator_skips_index_files (env : GenEnv) (dir baseURL : String)
    (files : List String) :
    GenerateFromDirectory env dir baseURL files =
      GenerateFromDirectory env dir baseURL
        (files.filter (fun f => !(strHasSuffix f "index.json"))) ∧
    strHasSuffix "my-index.json" "index.json" = true ∧
    strHasSuffix "testdata/repository/sub/index.json" "index.json" = true ∧
    strHasSuffix "testdata/repository/foo-1.0.0.json" "index.json" = false := by
  refine ⟨?_, rfl, rfl, rfl⟩
  unfold GenerateFromDirectory
  rw [genProcess_filter_index]

/-- The version order is irreflexive. -/
theorem versionLt_irrefl (v : SemVer) : versionLt v v = false := by
  simp [versionLt]

/-- The version order is asymmetric. -/
theorem versionLt_asymm {u v : SemVer} (h : versionLt u v = true) :
    versionLt v u = false := by
  simp only [versionLt, decide_eq_true_eq] at h
  simp only [versionLt, decide_eq_false_iff_not]
  omega

/-- Being not-below is transitive in the version order. -/
theorem versionLt_false_trans {u v w : SemVer} (h1 : versionLt u v = false)
    (h2 : versionLt v w = false) : versionLt u w = false := by
  simp only [versionLt, decide_eq_false_iff_not] at h1 h2 ⊢
  omega

/-- When the comparator sinks `x` below `y`, `y` is at or above `x` in
canonical order. -/
theorem entryGEb_of_less {x y : BundleEntry} (h : entryLess x y = true) :
    entryGEb y x = true := by
  unfold entryLess at h
  unfold entryGEb
  cases hx : parseVersion x.Version with
  | none => rfl
  | some vx =>
    rw [hx] at h
    dsimp only at h ⊢
    cases hy : parseVersion y.Version with
    | none =>
      rw [hy] at h
      simp at h
    | some vy =>
      rw [hy] at h
      dsimp only at h ⊢
      rw [versionLt_asymm h]
      rfl

/-- When the comparator does not sink `x` below `y`, `x` is at or above `y`
in canonical order. -/
theorem entryGEb_of_not_less {x y : BundleEntry} (h : entryLess x y = false) :
    entryGEb x y = true := by
  unfold entryLess at h
  unfold entryGEb
  cases hy : parseVersion y.Version with
  | none => rfl
  | some vy =>
    dsimp only
    cases hx : parseVersion x.Version with
    | none =>
      rw [hx] at h
      simp at h
    | some vx =>
      rw [hx, hy] at h
      dsimp only at h ⊢
      rw [h]
      rfl

/-- The canonical at-or-above order is transitive. -/
theorem entryGEb_trans {x y z : BundleEntry} (h1 : entryGEb x y = true)
    (h2 : entryGEb y z = true) : entryGEb x z = true := by
  unfold entryGEb at h1 h2 ⊢
  cases hz : parseVersion z.Version with
  | none => rfl
  | some vz =>
    rw [hz] at h2
    dsimp only at h2 ⊢
    cases hy : parseVersion y.Version with
    | none =>
      rw [hy] at h2
      simp at h2
    | some vy =>
      rw [hy] at h1 h2
      dsimp only at h1 h2
      cases hx : parseVersion x.Version with
      | none =>
        rw [hx] at h1
        simp at h1
      | some vx =>
        rw [hx] at h1
        dsimp only at h1 ⊢
        simp only [Bool.not_eq_true'] at h1 h2
        rw [versionLt_false_trans h1 h2]
        rfl

/-- Inserting an element permutes pushing it on the front. -/
theorem insertEntry_perm (x : BundleEntry) (l : List BundleEntry) :
    List.Perm (insertEntry x l) (x :: l) := by
  induction l with
  | nil => exact List.Perm.refl _
  | cons y ys ih =>
    unfold insertEntry
    by_cases h : entryLess x y = true
    · rw [if_pos h]
      exact (ih.cons y).trans (List.Perm.swap x y ys)
    · rw [if_neg h]

/-- Inserting into a canonically ordered slice keeps it canonically
ordered. -/
theorem insertEntry_pairwise {l : List BundleEntry}
    (h : l.Pairwise (fun a b => entryGEb a b = true)) (x : BundleEntry) :
    (insertEntry x l).Pairwise (fun a b => entryGEb a b = true) := by
  induction l with
  | nil => simp [insertEntry]
  | cons y ys ih =>
    rw [List.pairwise_cons] at h
    obtain ⟨hy, hys⟩ := h
    unfold insertEntry
    by_cases hc : entryLess x y = true
    · rw [if_pos hc]
      rw [List.pairwise_cons]
      refine ⟨?_, ih hys⟩
      intro z hz
      have hz2 := (insertEntry_perm x ys).mem_iff.mp hz
      rcases List.mem_cons.mp hz2 with rfl | hz3
      · exact entryGEb_of_less hc
      · exact hy z hz3
    · rw [if_neg hc]
      have hxb : entryLess x y = false := by
        cases hE : entryLess x y
        · rfl
        · exact absurd hE hc
      rw [List.pairwise_cons]
      constructor
      · intro z hz
        rcases List.mem_cons.mp hz with rfl | hz3
        · exact entryGEb_of_not_less hxb
        · exact entryGEb_trans (entryGEb_of_not_less hxb) (hy z hz3)
      · exact List.pairwise_cons.mpr ⟨hy, hys⟩

/-- The sort produces a canonically ordered slice: descending by parsed
version, entries with unparsable versions only after all parsable ones. -/
theorem sortEntriesList_pairwise (l : List BundleEntry) :
    (sortEntriesList l).Pairwise (fun a b => entryGEb a b = true) := by
  induction l with
  | nil => simp [sortEntriesList]
  | cons x xs ih => exact insertEntry_pairwise ih x

/-- The sort permutes the slice. -/
theorem sortEntriesList_perm (l : List BundleEntry) :
    List.Perm (sortEntriesList l) l := by
  induction l with
  | nil => exact List.Perm.refl _
  | cons x xs ih => exact ((insertEntry_perm x _).trans (ih.cons x))

/-- The number of unparsable entries is preserved by sorting. -/
theorem unparsableCount_sort (l : List BundleEntry) :
    unparsableCount (sortEntriesList l) = unparsableCount l := by
  unfold unparsableCount
  exact (sortEntriesList_perm l).countP_eq _

/-- A canonically ordered pair with at least one parsable side is not
swapped by the comparator. -/
theorem entryLess_false_of_ge {x y : BundleEntry}
    (hge : entryGEb x y = true)
    (hnb : entryParsable x = true ∨ entryParsable y = true) :
    entryLess x y = false := by
  unfold entryGEb at hge
  unfold entryLess
  unfold entryParsable at hnb
  cases hx : parseVersion x.Version with
  | none =>
    cases hy : parseVersion y.Version with
    | none =>
      rw [hx, hy] at hnb
      simp at hnb
    | some vy =>
      rw [hy] at hge
      dsimp only at hge
      rw [hx] at hge
      simp at hge
  | some vx =>
    dsimp only
    cases hy : parseVersion y.Version with
    | none => rfl
    | some vy =>
      rw [hy] at hge
      dsimp only at hge ⊢
      rw [hx] at hge
      dsimp only at hge
      simp only [Bool.not_eq_true'] at hge
      exact hge

/-- A canonically ordered slice with at most one unparsable entry is left
unchanged by the sort. -/
theorem sortEntriesList_eq_self {l : List BundleEntry}
    (hp : l.Pairwise (fun a b => entryGEb a b = true))
    (hc : unparsableCount l ≤ 1) : sortEntriesList l = l := by
  induction l with
  | nil => rfl
  | cons x xs ih =>
    rw [List.pairwise_cons] at hp
    obtain ⟨hx, hxs⟩ := hp
    have hcount : unparsableCount xs ≤ 1 := by
      unfold unparsableCount at hc ⊢
      rw [List.countP_cons] at hc
      omega
    have hsort : sortEntriesList xs = xs := ih hxs hcount
    show insertEntry x (sortEntriesList xs) = x :: xs
    rw [hsort]
    cases xs with
    | nil => rfl
    | cons y ys =>
      have hone : entryParsable x = true ∨ entryParsable y = true := by
        by_contra hcon
        push_neg at hcon
        obtain ⟨h1, h2⟩ := hcon
        have h1' : (!entryParsable x) = true := by
          simp [Bool.not_eq_true] at h1
          simp [h1]
        have h2' : (!entryParsable y) = true := by
          simp [Bool.not_eq_true] at h2
          simp [h2]
        unfold unparsableCount at hc
        rw [List.countP_cons, List.countP_cons] at hc
        rw [h1', h2'] at hc
        simp at hc
      have hlf : entryLess x y = false :=
        entryLess_false_of_ge (hx y (by simp)) hone
      unfold insertEntry
      rw [hlf]
      exact if_neg (fun hff => Bool.noConfusion hff)

/-- C4. The claim conjoins canonical ordering with stability and
idempotence of the sort. Idempotence fails: on a catalog whose foo slice
holds two entries with unparsable versions, each sort reverses that pair,
so sorting twice differs from sorting once (the same comparator behavior
also defeats stability, every pair of unparsable entries being swapped). -/
theorem C4_counterexample :
    idxTwoBad.SortEntries.Entries =
      [("foo", [sampleEntry "bad2", sampleEntry "bad1"])] ∧
    ¬ idxTwoBad.SortEntries.SortEntries = idxTwoBad.SortEntries := by
  refine ⟨rfl, ?_⟩
  decide

/-- C4 (amended). After `SortEntries`, every name's slice is canonically
ordered (descending by parsed version, unparsable entries trailing); and
the sort is idempotent on catalogs in which every name has at most one
unparsable-version entry (with two or more, each sort reverses the
unparsable run, so idempotence and stability fail). -/
theorem C4_sortEntries_canonical (i : IndexFile) :
    (∀ p ∈ i.SortEntries.Entries,
      p.2.Pairwise (fun a b => entryGEb a b = true)) ∧
    ((∀ p ∈ i.Entries, unparsableCount p.2 ≤ 1) →
      i.SortEntries.SortEntries = i.SortEntries) := by
  constructor
  · intro p hp
    unfold IndexFile.SortEntries at hp
    simp only [List.mem_map] at hp
    obtain ⟨q, hq, rfl⟩ := hp
    exact sortEntriesList_pairwise q.2
  · intro hcount
    unfold IndexFile.SortEntries
    simp only [IndexFile.mk.injEq, List.map_map, true_and, and_true]
    apply List.map_congr_left
    intro p hp
    simp only [Function.comp_apply, Prod.mk.injEq, true_and]
    exact sortEntriesList_eq_self (sortEntriesList_pairwise p.2)
      (by rw [unparsableCount_sort]; exact hcount p hp)

/-- Closed witness for C4 (amended) at a sorted catalog with one unparsable
entry under foo. -/
theorem C4_sortEntries_canonical_witness :
    (∀ p ∈ idxC3.Entries, unparsableCount p.2 ≤ 1) ∧
    idxC3.SortEntries.SortEntries = idxC3.SortEntries :=
  ⟨by decide, (C4_sortEntries_canonical idxC3).2 (by decide)⟩

/-- The empty string is not a parsable version. -/
theorem parseVersion_empty : parseVersion "" = none := rfl

/-- The wildcard string is not a parsable version. -/
theorem parseVersion_star : parseVersion "*" = none := rfl

/-- A parsable version string parses as a constraint meaning exact
equality with that version. -/
theorem parseConstraint_of_version {s : String} {w : SemVer}
    (h : parseVersion s = some w) :
    parseConstraint s = some (Constraint.exact w) := by
  unfold parseConstraint
  by_cases hs : s = "*"
  · subst hs
    rw [parseVersion_star] at h
    exact Option.noConfusion h
  · rw [if_neg hs, h]
    rfl

/-- The wildcard constraint matches exactly the parsable entries. -/
theorem entryMatches_any (e : BundleEntry) :
    entryMatches Constraint.any e = entryParsable e := by
  unfold entryMatches entryParsable
  cases h : parseVersion e.Version with
  | none => rfl
  | some t => rfl

/-- A nonempty slice is not isEmpty. -/
theorem isEmpty_false_of_ne {vs : List BundleEntry} (h : vs ≠ []) :
    vs.isEmpty = false := by
  cases vs with
  | nil => exact absurd rfl h
  | cons a l => rfl

/-- In a canonically ordered slice that holds some parsable entry, the
head is parsable. -/
theorem head_parsable_of_pairwise {v0 : BundleEntry} {tl : List BundleEntry}
    (hp : (v0 :: tl).Pairwise (fun a b => entryGEb a b = true))
    (he : ∃ e ∈ v0 :: tl, entryParsable e = true) :
    entryParsable v0 = true := by
  rcases he with ⟨e, he, hpar⟩
  rcases List.mem_cons.mp he with rfl | hmem
  · exact hpar
  · have hge := (List.pairwise_cons.mp hp).1 e hmem
    unfold entryGEb at hge
    unfold entryParsable at hpar ⊢
    cases hE : parseVersion e.Version with
    | none =>
      rw [hE] at hpar
      simp at hpar
    | some ve =>
      rw [hE] at hge
      dsimp only at hge
      cases hv : parseVersion v0.Version with
      | none =>
        rw [hv] at hge
        simp at hge
      | some vv => rfl

/-- C3. `Get` fails with NoBundleName on an absent name, NoBundleVersion
on an empty slice, and a constraint parse error on a malformed version;
with an empty version on a sorted catalog it returns an entry carrying the
highest parsable version under the name; with an exact version it returns
an entry of exactly that version when one exists, else the formatted
no-bundle-version-found error. -/
theorem C3_get_resolution (i : IndexFile) (name version : String) :
    (mGet i.Entries name = none →
      i.Get name version = .error .noBundleName) ∧
    (mGet i.Entries name = some [] →
      i.Get name version = .error .noBundleVersion) ∧
    (∀ vs, mGet i.Entries name = some vs → vs ≠ [] → version ≠ "" →
      parseConstraint version = none →
      i.Get name version = .error (.constraintParse version)) ∧
    (∀ vs, mGet i.Entries name = some vs → version = "" →
      vs.Pairwise (fun a b => entryGEb a b = true) →
      (∃ e ∈ vs, entryParsable e = true) →
      ∃ e v, i.Get name version = .ok e ∧ e ∈ vs ∧
        parseVersion e.Version = some v ∧
        ∀ e2 ∈ vs, ∀ v2, parseVersion e2.Version = some v2 →
          versionLt v v2 = false) ∧
    (∀ vs w, mGet i.Entries name = some vs → vs ≠ [] →
      parseVersion version = some w →
      ((∃ e ∈ vs, parseVersion e.Version = some w) →
        ∃ e, i.Get name version = .ok e ∧ parseVersion e.Version = some w) ∧
      ((∀ e ∈ vs, parseVersion e.Version ≠ some w) →
        i.Get name version = .error (.noVersionFound name version))) := by
  refine ⟨?_, ?_, ?_, ?_, ?_⟩
  · intro h
    unfold IndexFile.Get getEntry
    rw [h]
  · intro h
    unfold IndexFile.Get getEntry
    rw [h]
    rfl
  · intro vs hm hne hv hpc
    unfold IndexFile.Get getEntry
    rw [hm]
    dsimp only
    rw [isEmpty_false_of_ne hne]
    simp only [Bool.false_eq_true, if_false]
    rw [if_neg hv, hpc]
  · intro vs hm hveq hp hex
    subst hveq
    have hne : vs ≠ [] := by
      rintro rfl
      rcases hex with ⟨e, he, _⟩
      simp at he
    cases vs with
    | nil => exact absurd rfl hne
    | cons v0 tl =>
      have hv0 : entryParsable v0 = true := head_parsable_of_pairwise hp hex
      have hfind : (v0 :: tl).find? (entryMatches Constraint.any) = some v0 :=
        List.find?_cons_of_pos _ (by rw [entryMatches_any]; exact hv0)
      have hvalue : i.Get name "" = .ok v0 := by
        unfold IndexFile.Get getEntry
        rw [hm]
        dsimp only
        rw [List.isEmpty_cons]
        simp only [Bool.false_eq_true, if_false]
        rw [if_pos trivial]
        dsimp only
        rw [hfind]
      obtain ⟨vv, hvv⟩ := Option.isSome_iff_exists.mp
        (by unfold entryParsable at hv0; exact hv0)
      refine ⟨v0, vv, hvalue, by simp, hvv, ?_⟩
      intro e2 he2 v2 hv2
      rcases List.mem_cons.mp he2 with rfl | hmem
      · rw [hvv] at hv2
        injection hv2 with hvq
        subst hvq
        exact versionLt_irrefl vv
      · have hge := (List.pairwise_cons.mp hp).1 e2 hmem
        unfold entryGEb at hge
        rw [hv2] at hge
        dsimp only at hge
        rw [hvv] at hge
        dsimp only at hge
        simp only [Bool.not_eq_true'] at hge
        exact hge
  · intro vs w hm hne hw
    have hpc : parseConstraint version = some (Constraint.exact w) :=
      parseConstraint_of_version hw
    have hv : version ≠ "" := by
      rintro rfl
      rw [parseVersion_empty] at hw
      exact Option.noConfusion hw
    constructor
    · rintro ⟨e, he, hew⟩
      have hexm : ∃ x ∈ vs, entryMatches (Constraint.exact w) x = true := by
        refine ⟨e, he, ?_⟩
        unfold entryMatches
        rw [hew]
        dsimp only
        unfold Constraint.check
        simp
      obtain ⟨e2, he2⟩ := Option.isSome_iff_exists.mp
        (List.find?_isSome.mpr hexm)
      have hp2 : entryMatches (Constraint.exact w) e2 = true :=
        List.find?_some he2
      have hw2 : parseVersion e2.Version = some w := by
        unfold entryMatches at hp2
        cases hE : parseVersion e2.Version with
        | none =>
          rw [hE] at hp2
          simp at hp2
        | some t =>
          rw [hE] at hp2
          dsimp only at hp2
          unfold Constraint.check at hp2
          simp only [decide_eq_true_eq] at hp2
          exact congrArg some hp2.symm
      refine ⟨e2, ?_, hw2⟩
      unfold IndexFile.Get getEntry
      rw [hm]
      dsimp only
      rw [isEmpty_false_of_ne hne]
      simp only [Bool.false_eq_true, if_false]
      rw [if_neg hv, hpc]
      dsimp only
      rw [he2]
    · intro hall
      have hfn : vs.find? (entryMatches (Constraint.exact w)) = none := by
        rw [List.find?_eq_none]
        intro e he hmatch
        unfold entryMatches at hmatch
        cases hE : parseVersion e.Version with
        | none =>
          rw [hE] at hmatch
          simp at hmatch
        | some t =>
          rw [hE] at hmatch
          dsimp only at hmatch
          unfold Constraint.check at hmatch
          simp only [decide_eq_true_eq] at hmatch
          subst hmatch
          exact hall e he hE
      unfold IndexFile.Get getEntry
      rw [hm]
      dsimp only
      rw [isEmpty_false_of_ne hne]
      simp only [Bool.false_eq_true, if_false]
      rw [if_neg hv, hpc]
      dsimp only
      rw [hfn]

/-- Closed witness for C3, exercising each resolution case on the concrete
sorted catalog. -/
theorem C3_get_resolution_witness :
    (mGet idxC3.Entries "missing" = none ∧
      idxC3.Get "missing" "" = .error .noBundleName) ∧
    (mGet idxC3.Entries "empty" = some [] ∧
      idxC3.Get "empty" "1.0.0" = .error .noBundleVersion) ∧
    (mGet idxC3.Entries "foo" =
        some [sampleEntry "2.1.0", sampleEntry "1.0.0", sampleEntry "bad"] ∧
      parseConstraint "not-a-version" = none ∧
      idxC3.Get "foo" "not-a-version" =
        .error (.constraintParse "not-a-version")) ∧
    (List.Pairwise (fun a b => entryGEb a b = true)
        [sampleEntry "2.1.0", sampleEntry "1.0.0", sampleEntry "bad"] ∧
      (∃ e ∈ [sampleEntry "2.1.0", sampleEntry "1.0.0", sampleEntry "bad"],
        entryParsable e = true) ∧
      (∃ e v, idxC3.Get "foo" "" = .ok e ∧
        e ∈ [sampleEntry "2.1.0", sampleEntry "1.0.0", sampleEntry "bad"] ∧
        parseVersion e.Version = some v ∧
        ∀ e2 ∈ [sampleEntry "2.1.0", sampleEntry "1.0.0", sampleEntry "bad"],
          ∀ v2, parseVersion e2.Version = some v2 →
            versionLt v v2 = false)) ∧
    (parseVersion "1.0.0" = some ⟨1, 0, 0⟩ ∧
      (∃ e, idxC3.Get "foo" "1.0.0" = .ok e ∧
        parseVersion e.Version = some ⟨1, 0, 0⟩) ∧
      idxC3.Get "foo" "9.9.9" = .error (.noVersionFound "foo" "9.9.9")) := by
  refine ⟨⟨rfl, (C3_get_resolution idxC3 "missing" "").1 rfl⟩,
    ⟨rfl, (C3_get_resolution idxC3 "empty" "1.0.0").2.1 rfl⟩,
    ⟨rfl, rfl, (C3_get_resolution idxC3 "foo" "not-a-version").2.2.1 _ rfl
      (by decide) (by decide) rfl⟩,
    ⟨by decide, by decide, (C3_get_resolution idxC3 "foo" "").2.2.2.1 _ rfl
      rfl (by decide) (by decide)⟩,
    ⟨rfl, ((C3_get_resolution idxC3 "foo" "1.0.0").2.2.2.2 _ ⟨1, 0, 0⟩ rfl
      (by decide) rfl).1 (by decide),
      ((C3_get_resolution idxC3 "foo" "9.9.9").2.2.2.2 _ ⟨9, 9, 9⟩ rfl
        (by decide) rfl).2 (by decide)⟩⟩

/-- A slice that is not isEmpty is nonempty. -/
theorem ne_nil_of_isEmpty_false {vs : List BundleEntry}
    (h : vs.isEmpty = false) : vs ≠ [] := by
  cases vs with
  | nil => simp at h
  | cons a l => exact List.cons_ne_nil a l

/-- Updating a key makes it readable. -/
theorem mGet_mSet_self (m : List (String × List BundleEntry)) (k : String)
    (v : List BundleEntry) : mGet (mSet m k v) k = some v := by
  induction m with
  | nil =>
    unfold mSet mGet
    rw [if_pos rfl]
  | cons p r ih =>
    unfold mSet
    by_cases h : p.1 = k
    · rw [if_pos h]
      unfold mGet
      rw [if_pos rfl]
    · rw [if_neg h]
      unfold mGet
      rw [if_neg h]
      exact ih

/-- Updating a key leaves other keys unread. -/
theorem mGet_mSet_ne {k n : String} (h : k ≠ n)
    (m : List (String × List BundleEntry)) (v : List BundleEntry) :
    mGet (mSet m k v) n = mGet m n := by
  induction m with
  | nil =>
    unfold mSet mGet
    rw [if_neg h]
    rfl
  | cons p r ih =>
    unfold mSet
    by_cases hp : p.1 = k
    · rw [if_pos hp]
      unfold mGet
      rw [if_neg h, if_neg (hp ▸ h)]
    · rw [if_neg hp]
      unfold mGet
      by_cases hn : p.1 = n
      · rw [if_pos hn, if_pos hn]
      · rw [if_neg hn, if_neg hn]
        exact ih

/-- Eliminates a successful `Has` into the ingredients of the successful
`Get` run. -/
theorem hasEntry_true_elim {m : List (String × List BundleEntry)}
    {n v : String} (h : hasEntry m n v = true) :
    ∃ vs c e, mGet m n = some vs ∧ vs ≠ [] ∧
      (if v = "" then some Constraint.any else parseConstraint v) = some c ∧
      vs.find? (entryMatches c) = some e := by
  unfold hasEntry getEntry at h
  cases hg : mGet m n with
  | none =>
    rw [hg] at h
    simp at h
  | some vs =>
    rw [hg] at h
    dsimp only at h
    cases hvs : vs.isEmpty with
    | true =>
      rw [hvs] at h
      simp at h
    | false =>
      rw [hvs] at h
      simp only [Bool.false_eq_true, if_false] at h
      cases hc : (if v = "" then some Constraint.any else parseConstraint v) with
      | none =>
        rw [hc] at h
        simp at h
      | some c =>
        rw [hc] at h
        dsimp only at h
        cases hf : vs.find? (entryMatches c) with
        | none =>
          rw [hf] at h
          simp at h
        | some e =>
          exact ⟨vs, c, e, rfl, ne_nil_of_isEmpty_false hvs, rfl, hf⟩

/-- Rebuilds a successful `Has` from the ingredients of a successful `Get`
run. -/
theorem hasEntry_true_intro {m : List (String × List BundleEntry)}
    {n v : String} {vs : List BundleEntry} {c : Constraint} {e : BundleEntry}
    (hg : mGet m n = some vs) (hne : vs ≠ [])
    (hc : (if v = "" then some Constraint.any else parseConstraint v) = some c)
    (hf : vs.find? (entryMatches c) = some e) :
    hasEntry m n v = true := by
  unfold hasEntry getEntry
  rw [hg]
  dsimp only
  rw [isEmpty_false_of_ne hne]
  simp only [Bool.false_eq_true, if_false]
  rw [hc]
  dsimp only
  rw [hf]

/-- A successful search is preserved by appending entries on the right. -/
theorem find?_append_some {p : BundleEntry → Bool} {l s : List BundleEntry}
    {a : BundleEntry} (h : l.find? p = some a) :
    (l ++ s).find? p = some a := by
  induction l with
  | nil => simp [List.find?] at h
  | cons x xs ih =>
    rw [List.cons_append]
    cases hx : p x with
    | true =>
      rw [List.find?_cons_of_pos _ hx] at h
      rw [List.find?_cons_of_pos _ hx]
      exact h
    | false =>
      rw [List.find?_cons_of_neg _ (by simp [hx])] at h
      rw [List.find?_cons_of_neg _ (by simp [hx])]
      exact ih h

/-- A per-key extension seen through `mGetD` yields the extended slice
through `mGet` when the original key was present and nonempty. -/
theorem mGet_of_extend {m m2 : List (String × List BundleEntry)} {n : String}
    {vs s : List BundleEntry} (hg : mGet m n = some vs) (hne : vs ≠ [])
    (hs : mGetD m2 n = mGetD m n ++ s) : mGet m2 n = some (vs ++ s) := by
  unfold mGetD at hs
  rw [hg] at hs
  simp only [Option.getD_some] at hs
  cases hg2 : mGet m2 n with
  | none =>
    rw [hg2] at hs
    simp only [Option.getD_none] at hs
    cases vs with
    | nil => exact absurd rfl hne
    | cons a l => simp at hs
  | some vs2 =>
    rw [hg2] at hs
    simp only [Option.getD_some] at hs
    rw [hs]

/-- A successful `Has` survives any per-key right-extension of the map. -/
theorem hasEntry_extend {m m2 : List (String × List BundleEntry)}
    {n v : String} (h : hasEntry m n v = true)
    (hext : ∀ k, ∃ s, mGetD m2 k = mGetD m k ++ s) :
    hasEntry m2 n v = true := by
  obtain ⟨vs, c, e, hg, hne, hc, hf⟩ := hasEntry_true_elim h
  obtain ⟨s, hs⟩ := hext n
  exact hasEntry_true_intro (mGet_of_extend hg hne hs)
    (fun hnil => hne (List.append_eq_nil.mp hnil).1) hc (find?_append_some hf)

/-- A parsable entry matches its own exact constraint. -/
theorem entryMatches_exact_self {e : BundleEntry} {w : SemVer}
    (hw : parseVersion e.Version = some w) :
    entryMatches (Constraint.exact w) e = true := by
  unfold entryMatches
  rw [hw]
  dsimp only
  unfold Constraint.check
  simp

/-- The constraint `Get` builds for a parsable version string is the exact
constraint on its parse. -/
theorem constraintFor_of_parse {v : String} {w : SemVer}
    (hw : parseVersion v = some w) :
    (if v = "" then some Constraint.any else parseConstraint v) =
      some (Constraint.exact w) := by
  have hv : v ≠ "" := by
    rintro rfl
    rw [parseVersion_empty] at hw
    exact Option.noConfusion hw
  rw [if_neg hv]
  exact parseConstraint_of_version hw

/-- After appending a parsable entry under its name, `Has` succeeds for its
name and version. -/
theorem hasEntry_append_self {m : List (String × List BundleEntry)}
    {cv : BundleEntry} (hp : entryParsable cv = true) :
    hasEntry (mSet m cv.Name (mGetD m cv.Name ++ [cv]))
      cv.Name cv.Version = true := by
  obtain ⟨w, hw⟩ := Option.isSome_iff_exists.mp hp
  have hmem : ∃ x ∈ mGetD m cv.Name ++ [cv],
      entryMatches (Constraint.exact w) x = true :=
    ⟨cv, by simp, entryMatches_exact_self hw⟩
  obtain ⟨e2, he2⟩ := Option.isSome_iff_exists.mp (List.find?_isSome.mpr hmem)
  refine hasEntry_true_intro (mGet_mSet_self m cv.Name _) ?_
    (constraintFor_of_parse hw) he2
  cases hq : mGetD m cv.Name <;> simp [hq]

/-- With distinct keys, a binding of the map is read back exactly. -/
theorem mGet_of_mem_nodup {m : List (String × List BundleEntry)}
    (hnd : nodupKeys m) {p : String × List BundleEntry} (hp : p ∈ m) :
    mGet m p.1 = some p.2 := by
  induction m with
  | nil => cases hp
  | cons q r ih =>
    unfold nodupKeys at hnd
    rw [List.map_cons, List.nodup_cons] at hnd
    obtain ⟨hq, hr⟩ := hnd
    rcases List.mem_cons.mp hp with rfl | hmem
    · unfold mGet
      rw [if_pos rfl]
    · have hne : q.1 ≠ p.1 := by
        intro he
        exact hq (he ▸ List.mem_map_of_mem Prod.fst hmem)
      unfold mGet
      rw [if_neg hne]
      exact ih hr hmem

/-- In a well-formed catalog with distinct keys, `Has` succeeds for the
name and version of every stored parsable entry. -/
theorem hasEntry_of_mem {m : List (String × List BundleEntry)}
    (hnd : nodupKeys m) (hwf : wfEntries m)
    {p : String × List BundleEntry} (hp : p ∈ m) {e : BundleEntry}
    (he : e ∈ p.2) (hpar : entryParsable e = true) :
    hasEntry m e.Name e.Version = true := by
  obtain ⟨w, hw⟩ := Option.isSome_iff_exists.mp hpar
  have hmem : ∃ x ∈ p.2, entryMatches (Constraint.exact w) x = true :=
    ⟨e, he, entryMatches_exact_self hw⟩
  obtain ⟨e2, he2⟩ := Option.isSome_iff_exists.mp (List.find?_isSome.mpr hmem)
  have hg : mGet m e.Name = some p.2 := by
    rw [hwf p hp e he]
    exact mGet_of_mem_nodup hnd hp
  exact hasEntry_true_intro hg
    (fun hnil => by rw [hnil] at he; simp at he)
    (constraintFor_of_parse hw) he2

/-- One merge step extends every key's slice on the right. -/
theorem mergeStep_extend (m : List (String × List BundleEntry))
    (cv : BundleEntry) (n : String) :
    ∃ s, mGetD (mergeStep m cv) n = mGetD m n ++ s := by
  unfold mergeStep
  by_cases hh : hasEntry m cv.Name cv.Version = true
  · rw [if_pos hh]
    exact ⟨[], (List.append_nil _).symm⟩
  · rw [if_neg hh]
    by_cases hn : cv.Name = n
    · subst hn
      refine ⟨[cv], ?_⟩
      unfold mGetD
      rw [mGet_mSet_self]
      rfl
    · refine ⟨[], ?_⟩
      unfold mGetD
      rw [mGet_mSet_ne hn, List.append_nil]

/-- The whole merge extends every key's slice on the right. -/
theorem mergeEntries_extend (l : List BundleEntry)
    (m : List (String × List BundleEntry)) (n : String) :
    ∃ s, mGetD (mergeEntries m l) n = mGetD m n ++ s := by
  induction l generalizing m with
  | nil => exact ⟨[], (List.append_nil _).symm⟩
  | cons cv rest ih =>
    obtain ⟨s1, hs1⟩ := mergeStep_extend m cv n
    obtain ⟨s2, hs2⟩ := ih (mergeStep m cv)
    refine ⟨s1 ++ s2, ?_⟩
    show mGetD (mergeEntries (mergeStep m cv) rest) n = _
    rw [hs2, hs1, List.append_assoc]

/-- After the merge, `Has` succeeds for every parsable entry of the merged
list. -/
theorem mergeEntries_has {l : List BundleEntry} :
    ∀ {m : List (String × List BundleEntry)} {cv : BundleEntry},
      cv ∈ l → entryParsable cv = true →
      hasEntry (mergeEntries m l) cv.Name cv.Version = true := by
  induction l with
  | nil =>
    intro m cv h _
    simp at h
  | cons c rest ih =>
    intro m cv hcv hp
    show hasEntry (mergeEntries (mergeStep m c) rest) cv.Name cv.Version = true
    rcases List.mem_cons.mp hcv with rfl | hmem
    · have hstep : hasEntry (mergeStep m cv) cv.Name cv.Version = true := by
        unfold mergeStep
        by_cases hh : hasEntry m cv.Name cv.Version = true
        · rw [if_pos hh]
          exact hh
        · rw [if_neg hh]
          exact hasEntry_append_self hp
      exact hasEntry_extend hstep (mergeEntries_extend rest (mergeStep m cv))
    · exact ih hmem hp

/-- `IndexFile.Has` reads the entries map. -/
theorem Has_eq_hasEntry (i : IndexFile) (n v : String) :
    i.Has n v = hasEntry i.Entries n v := rfl

/-- Membership in the flattened entries comes from a binding. -/
theorem mem_entriesOf {m : List (String × List BundleEntry)} {e : BundleEntry}
    (he : e ∈ entriesOf m) : ∃ p ∈ m, e ∈ p.2 := by
  unfold entriesOf at he
  rw [List.mem_flatten] at he
  obtain ⟨l, hl, hel⟩ := he
  rw [List.mem_map] at hl
  obtain ⟨p, hp, rfl⟩ := hl
  exact ⟨p, hp, hel⟩

/-- C5. The claim states the merged catalog `Has` every (name, version)
present in either side beforehand, dedup being keyed by exact version. The
dedup in fact goes through `Has`, whose `Get` parses the version as a
semver constraint: an entry with an unparsable version is always appended
(even when byte-identical to an existing entry) and `Has` stays false for
it after the merge. -/
theorem C5_counterexample :
    badVerEntry ∈ entriesOf idxB5.Entries ∧
    badVerEntry.Name = "foo" ∧ badVerEntry.Version = "garbage" ∧
    (idxA5.Merge idxB5).Has "foo" "garbage" = false ∧
    (idxB5.Merge idxB5).Entries = [("foo", [badVerEntry, badVerEntry])] := by
  refine ⟨by decide, rfl, rfl, by decide, by decide⟩

/-- C5 (amended). For catalogs whose entries are stored under their own
name, with distinct keys on the receiver and parsable versions throughout:
the merge only right-extends every name's slice (existing entries are
neither replaced nor mutated, first write wins), and afterwards `Has`
succeeds for the name and version of every entry present in either catalog
beforehand. -/
theorem C5_merge_additive (a b : IndexFile)
    (hnd : nodupKeys a.Entries) (hwf : wfEntries a.Entries)
    (hpa : allParsable a.Entries) (hpb : allParsable b.Entries) :
    (∀ n, ∃ s, mGetD (a.Merge b).Entries n = mGetD a.Entries n ++ s) ∧
    (∀ p ∈ a.Entries, ∀ e ∈ p.2, (a.Merge b).Has e.Name e.Version = true) ∧
    (∀ e ∈ entriesOf b.Entries, (a.Merge b).Has e.Name e.Version = true) := by
  refine ⟨?_, ?_, ?_⟩
  · intro n
    exact mergeEntries_extend _ _ n
  · intro p hp e he
    have h0 : hasEntry a.Entries e.Name e.Version = true :=
      hasEntry_of_mem hnd hwf hp he (hpa p hp e he)
    rw [Has_eq_hasEntry]
    exact hasEntry_extend h0 (mergeEntries_extend _ _)
  · intro e he
    obtain ⟨p, hpp, hpe⟩ := mem_entriesOf he
    rw [Has_eq_hasEntry]
    exact mergeEntries_has he (hpb p hpp e hpe)

/-- Closed witness for C5 (amended) at concrete overlapping catalogs. -/
theorem C5_merge_additive_witness :
    nodupKeys idxMergeA.Entries ∧ wfEntries idxMergeA.Entries ∧
    allParsable idxMergeA.Entries ∧ allParsable idxMergeB.Entries ∧
    ((∀ n, ∃ s, mGetD (idxMergeA.Merge idxMergeB).Entries n =
        mGetD idxMergeA.Entries n ++ s) ∧
    (∀ p ∈ idxMergeA.Entries, ∀ e ∈ p.2,
      (idxMergeA.Merge idxMergeB).Has e.Name e.Version = true) ∧
    (∀ e ∈ entriesOf idxMergeB.Entries,
      (idxMergeA.Merge idxMergeB).Has e.Name e.Version = true)) :=
  ⟨by decide, by decide, by decide, by decide,
    C5_merge_additive idxMergeA idxMergeB (by decide) (by decide)
      (by decide) (by decide)⟩

end Duffle
